import Mathlib

/-!
Shallow embedding of the IPAM repository core (hydrz/ipam) in Lean 4.

Embedded source files:
* src/src/lib/ip-utils.ts — the CIDR engine (validation, parsing, overlap,
  containment, normalization);
* the IPAMManager component (embedded in src/README.md) — the pool-tree
  builder buildPoolTree / calculateUsedIps and the candidate validator
  validateCIDR;
* src/src/lib/db.ts — only cidrExists is needed, modelled as a scan of the
  in-memory pool collection (the SQL table mirrors the component's pools
  state).

Modelling conventions for JavaScript semantics:
* Strings are List Char.
* JavaScript numbers are modelled exactly: integers as Int, NaN as the none
  of an Option.  All values handled by this code are integers well inside
  the 2^53 exact range of IEEE doubles, so exact integer arithmetic is a
  faithful model on the domain the program manipulates.  Math.pow(2, 32-p)
  is modelled in ℚ so that it is exact even for out-of-range stored data.
* The 32-bit coercions of the bitwise operators are explicit: toUint32n is
  ToUint32, toInt32n is ToInt32 (both send NaN to 0, as in JS); jsShl,
  jsShrU, jsAnd, jsOr, jsNot operate on 32-bit patterns.
* Number(s) (used by ipToNumber via .map(Number)) is modelled on optionally
  signed decimal integer strings; other numeric literal forms (hex,
  fractions, exponents) are mapped to NaN.  The addresses this code feeds
  to Number are dot-split octet strings, where this restriction is
  immaterial to every claim checked here.
* parseInt(s, 10) is modelled in full for radix 10: skip leading
  whitespace, optional sign, longest digit run, NaN if no digit.
-/

/-- Characters skipped by the JS whitespace trimming of parseInt / Number
(the ASCII WhiteSpace and LineTerminator code points). -/
def isWS (c : Char) : Bool :=
  c = ' ' || c = '\t' || c = '\n' || c = '\r' ||
  c = Char.ofNat 11 || c = Char.ofNat 12

/-- Numeric value of a decimal digit string (most significant first). -/
def digitsVal (l : List Char) : Nat :=
  l.foldl (fun a c => 10 * a + (c.toNat - 48)) 0

/-- JS parseInt(s, 10): skip leading whitespace, optional sign, then the
longest run of decimal digits; NaN (none) when that run is empty. -/
def parseIntJS (s : List Char) : Option Int :=
  let t := s.dropWhile isWS
  let neg := t.head? == some '-'
  let body := if neg || (t.head? == some '+') then t.tail else t
  let ds := body.takeWhile Char.isDigit
  if ds.isEmpty then none
  else some (if neg then -(digitsVal ds : Int) else (digitsVal ds : Int))

/-- Whitespace trimming on both ends (JS ToNumber of a string trims). -/
def trimWS (s : List Char) : List Char :=
  ((s.dropWhile isWS).reverse.dropWhile isWS).reverse

/-- JS Number(s) restricted to optionally signed decimal integer strings:
empty/whitespace-only gives 0, a signed digit string gives its value, and
everything else gives NaN (none).  See the file header for why this
restriction is faithful on the program's domain. -/
def jsNumber (s : List Char) : Option Int :=
  let t := trimWS s
  if t.isEmpty then some 0
  else
    let neg := t.head? == some '-'
    let body := if neg || (t.head? == some '+') then t.tail else t
    if body.isEmpty || !(body.all Char.isDigit) then none
    else some (if neg then -(digitsVal body : Int) else (digitsVal body : Int))

/-- Helper for toDecimal: structural recursion on a fuel bound (always
called with fuel greater than the number, so the 0 case is unreachable). -/
def toDecimalAux : Nat → Nat → List Char
  | 0, _ => []
  | fuel + 1, n =>
    if n < 10 then [Char.ofNat (48 + n)]
    else toDecimalAux fuel (n / 10) ++ [Char.ofNat (48 + n % 10)]

/-- Decimal rendering of a natural number, as JS stringifies a nonnegative
integer (no leading zeros, a single 0 for zero). -/
def toDecimal (n : Nat) : List Char := toDecimalAux (n + 1) n

/-- JS stringification of an integer-valued number. -/
def jsNumToStr (n : Int) : List Char :=
  if n < 0 then '-' :: toDecimal (-n).toNat else toDecimal n.toNat

/-- JS String.prototype.split with a single-character separator:
pieces between occurrences of the separator, keeping empty pieces. -/
def splitOn (sep : Char) : List Char → List (List Char)
  | [] => [[]]
  | c :: rest =>
    match splitOn sep rest with
    | [] => [[]]
    | p :: ps => if c = sep then [] :: p :: ps else (c :: p) :: ps

/-- JS Array.prototype.join with a single-character separator. -/
def joinSep (sep : Char) : List (List Char) → List Char
  | [] => []
  | [x] => x
  | x :: xs => x ++ sep :: joinSep sep xs

/-- JS ToUint32 of an integer-valued number: reduce mod 2^32 into [0, 2^32). -/
def toUint32n (x : Int) : Int := x % 2 ^ 32

/-- JS ToInt32 of an integer-valued number: reduce mod 2^32 into
[-2^31, 2^31). -/
def toInt32n (x : Int) : Int :=
  if x % 2 ^ 32 < 2 ^ 31 then x % 2 ^ 32 else x % 2 ^ 32 - 2 ^ 32

/-- Bit pattern (as a Nat below 2^32) shared by ToInt32 and ToUint32 of a
number. -/
def pat32 (x : Int) : Nat := (toUint32n x).toNat

/-- JS a << b on integer-valued operands (ToInt32 the shiftee, shift count
taken mod 32, 32-bit wraparound); NaN operands coerce to 0 as in JS. -/
def jsShl (a : Option Int) (b : Option Int) : Int :=
  toInt32n (toInt32n (a.getD 0) * 2 ^ (pat32 (b.getD 0) % 32))

/-- JS a >>> k for a literal shift count: unsigned 32-bit right shift;
a >>> 0 is exactly ToUint32. -/
def jsShrU (a : Int) (k : Nat) : Int :=
  ((pat32 a / 2 ^ (k % 32) : Nat) : Int)

/-- JS bitwise a & b on integer-valued operands. -/
def jsAnd (a b : Int) : Int :=
  toInt32n ((pat32 a &&& pat32 b : Nat) : Int)

/-- JS bitwise a | b on integer-valued operands. -/
def jsOr (a b : Int) : Int :=
  toInt32n ((pat32 a ||| pat32 b : Nat) : Int)

/-- JS bitwise complement of a (flip the 32 bits of the pattern). -/
def jsNot (a : Int) : Int :=
  toInt32n ((pat32 a ^^^ (2 ^ 32 - 1) : Nat) : Int)

/-- Math.pow(2, e) for an integer-valued exponent, exact in ℚ: 2^e for
e >= 0 and 1/2^(-e) otherwise (the float is exact on the [-1074, 1023]
range every stored prefix stays in). -/
def pow2q (e : Int) : ℚ :=
  if 0 ≤ e then ((2 ^ e.toNat : Nat) : ℚ) else mkRat 1 (2 ^ (-e).toNat)

/-- NaN-propagating addition of JS numbers (used for the += accumulation
of usedIps, whose operands can be NaN for corrupt stored data).  The sum
is written through the normalizing constructor mkRat — the textbook
num/den cross product, equal to x + y in ℚ — so that it evaluates by
kernel reduction. -/
def jsAddQ (a b : Option ℚ) : Option ℚ :=
  match a, b with
  | some x, some y => some (mkRat (x.num * y.den + y.num * x.den) (x.den * y.den))
  | _, _ => none

/-- Comparison start <= end of JS numbers: false when either is NaN. -/
def jsLe (a b : Option Int) : Bool :=
  match a, b with
  | some x, some y => decide (x ≤ y)
  | _, _ => false

/-- Comparison end >= start of JS numbers: false when either is NaN. -/
def jsGe (a b : Option Int) : Bool :=
  match a, b with
  | some x, some y => decide (x ≥ y)
  | _, _ => false

/-!
The CIDR engine: src/src/lib/ip-utils.ts, function by function.
-/

/-- Source ipToNumber:
parts = ip.split('.').map(Number);
return (parts[0] << 24) + (parts[1] << 16) + (parts[2] << 8) + parts[3].
A missing parts[i] (undefined) behaves like NaN under << and +, hence the
Option.join.  The three shifted terms are always numbers (ToInt32 sends
NaN to 0); the bare final summand makes the whole result NaN when
parts[3] is NaN or missing. -/
def ipToNumber (ip : List Char) : Option Int :=
  let parts := (splitOn '.' ip).map jsNumber
  let p0 := (parts[0]?).join
  let p1 := (parts[1]?).join
  let p2 := (parts[2]?).join
  let p3 := (parts[3]?).join
  match p3 with
  | none => none
  | some d => some (jsShl p0 (some 24) + jsShl p1 (some 16) + jsShl p2 (some 8) + d)

/-- Source numberToIp:
[(num >>> 24) & 255, (num >>> 16) & 255, (num >>> 8) & 255, num & 255]
  .join('.'). -/
def numberToIp (num : Int) : List Char :=
  joinSep '.'
    [ jsNumToStr (jsAnd (jsShrU num 24) 255),
      jsNumToStr (jsAnd (jsShrU num 16) 255),
      jsNumToStr (jsAnd (jsShrU num 8) 255),
      jsNumToStr (jsAnd num 255) ]

/-- Source isValidIp:
parts = ip.split('.'); if (parts.length !== 4) return false;
return parts.every(part => { num = parseInt(part, 10);
  return !isNaN(num) && num >= 0 && num <= 255; }). -/
def isValidIp (ip : List Char) : Bool :=
  let parts := splitOn '.' ip
  if parts.length != 4 then false
  else parts.all fun part =>
    match parseIntJS part with
    | none => false
    | some num => decide (0 ≤ num) && decide (num ≤ 255)

/-- Source isValidCIDR:
parts = cidr.split('/'); if (parts.length !== 2) return false;
[ip, pfx] = parts; pfxNum = parseInt(pfx, 10);
return isValidIp(ip) && !isNaN(pfxNum) && pfxNum >= 8 && pfxNum <= 32. -/
def isValidCIDR (cidr : List Char) : Bool :=
  let parts := splitOn '/' cidr
  if parts.length != 2 then false
  else
    let ip := parts.headD []
    match parseIntJS (parts.getD 1 []) with
    | none => isValidIp ip && false
    | some n => isValidIp ip && (decide (n ≥ 8) && decide (n ≤ 32))

/-- Intermediate of parseCIDR and normalizeCIDR: the prefix-length number
parseInt(cidr.split('/')[1], 10); none is NaN (also when the split has no
second component, since parseInt(undefined) is NaN). -/
def cidrPfx (cidr : List Char) : Option Int :=
  match (splitOn '/' cidr)[1]? with
  | none => none
  | some s => parseIntJS s

/-- Intermediate of parseCIDR: ipNum = ipToNumber(cidr.split('/')[0]). -/
def cidrIpNum (cidr : List Char) : Option Int :=
  ipToNumber ((splitOn '/' cidr).headD [])

/-- Intermediate of parseCIDR: mask = (-1 << (32 - prefixNum)) >>> 0
(32 - NaN is NaN, which the shift's ToUint32 sends to 0). -/
def cidrMask (cidr : List Char) : Int :=
  jsShrU (jsShl (some (-1)) ((cidrPfx cidr).map (fun p => 32 - p))) 0

/-- Intermediate of parseCIDR: network = (ipNum & mask) >>> 0
(a NaN ipNum coerces to 0 under &). -/
def cidrNetwork (cidr : List Char) : Int :=
  jsShrU (jsAnd ((cidrIpNum cidr).getD 0) (cidrMask cidr)) 0

/-- Intermediate of parseCIDR: broadcast = (network | ~mask) >>> 0. -/
def cidrBroadcast (cidr : List Char) : Int :=
  jsShrU (jsOr (cidrNetwork cidr) (jsNot (cidrMask cidr))) 0

/-- Record returned by parseCIDR. -/
structure ParsedCIDR where
  networkAddress : List Char
  broadcastAddress : List Char
  firstIp : List Char
  lastIp : List Char
  totalIps : Option ℚ
  pfx : Option Int
deriving DecidableEq, Repr

/-- Source parseCIDR, assembled from the intermediates above:
{ networkAddress: numberToIp(network),
  broadcastAddress: numberToIp(broadcast),
  firstIp: numberToIp(network + 1), lastIp: numberToIp(broadcast - 1),
  totalIps: Math.pow(2, 32 - prefixNum), prefix: prefixNum }. -/
def parseCIDR (cidr : List Char) : ParsedCIDR :=
  { networkAddress := numberToIp (cidrNetwork cidr)
    broadcastAddress := numberToIp (cidrBroadcast cidr)
    firstIp := numberToIp (cidrNetwork cidr + 1)
    lastIp := numberToIp (cidrBroadcast cidr - 1)
    totalIps := (cidrPfx cidr).map (fun p => pow2q (32 - p))
    pfx := cidrPfx cidr }

/-- Source cidrsOverlap:
range1 = parseCIDR(cidr1); range2 = parseCIDR(cidr2);
start1 = ipToNumber(range1.networkAddress); end1 = ipToNumber(range1.broadcastAddress);
start2 = ipToNumber(range2.networkAddress); end2 = ipToNumber(range2.broadcastAddress);
return start1 <= end2 && end1 >= start2. -/
def cidrsOverlap (cidr1 cidr2 : List Char) : Bool :=
  let range1 := parseCIDR cidr1
  let range2 := parseCIDR cidr2
  let start1 := ipToNumber range1.networkAddress
  let end1 := ipToNumber range1.broadcastAddress
  let start2 := ipToNumber range2.networkAddress
  let end2 := ipToNumber range2.broadcastAddress
  jsLe start1 end2 && jsGe end1 start2

/-- Source isChildOfParent:
child = parseCIDR(childCidr); parent = parseCIDR(parentCidr);
childStart = ipToNumber(child.networkAddress); childEnd = ipToNumber(child.broadcastAddress);
parentStart = ipToNumber(parent.networkAddress); parentEnd = ipToNumber(parent.broadcastAddress);
return childStart >= parentStart && childEnd <= parentEnd. -/
def isChildOfParent (childCidr parentCidr : List Char) : Bool :=
  let child := parseCIDR childCidr
  let parent := parseCIDR parentCidr
  let childStart := ipToNumber child.networkAddress
  let childEnd := ipToNumber child.broadcastAddress
  let parentStart := ipToNumber parent.networkAddress
  let parentEnd := ipToNumber parent.broadcastAddress
  jsGe childStart parentStart && jsLe childEnd parentEnd

/-- Source getNetworkAddress(ip, prefix):
ipNum = ipToNumber(ip); mask = (-1 << (32 - prefix)) >>> 0;
network = (ipNum & mask) >>> 0; return numberToIp(network).
The prefix parameter is a JS number, possibly NaN. -/
def getNetworkAddress (ip : List Char) (pfx : Option Int) : List Char :=
  let ipNum := ipToNumber ip
  let mask := jsShrU (jsShl (some (-1)) (pfx.map (fun p => 32 - p))) 0
  let network := jsShrU (jsAnd (ipNum.getD 0) mask) 0
  numberToIp network

/-- Stringification of a possibly-NaN number inside a template literal. -/
def jsNumToStrN (n : Option Int) : List Char :=
  match n with
  | none => ['N', 'a', 'N']
  | some v => jsNumToStr v

/-- Source normalizeCIDR:
[ip, pfxStr] = cidr.split('/'); pfx = parseInt(pfxStr, 10);
network = getNetworkAddress(ip, pfx); return network + '/' + pfx. -/
def normalizeCIDR (cidr : List Char) : List Char :=
  let parts := splitOn '/' cidr
  let ip := parts.headD []
  let pfx : Option Int :=
    match parts[1]? with
    | none => none
    | some s => parseIntJS s
  let network := getNetworkAddress ip pfx
  network ++ '/' :: jsNumToStrN pfx

/-!
The pool hierarchy builder and the candidate validator, from the
IPAMManager component (embedded in src/README.md).

buildPoolTree is an imperative Map-and-mutation pass; the definitions
below are its pure reconstruction, equal to it node for node:
* rootNodes is the input-order sublist of pools with null/undefined
  parentId;
* a node's children list collects, in input order, the pools whose
  parentId is this node's id (the second forEach pushes exactly those,
  through poolMap, which holds every pool keyed by id);
* node.level is assigned sequentially inside the same forEach, reading
  the parent node's level at that moment — computeLevels replays that
  pass over an id-to-level map, all ids starting at 0;
* calculateUsedIps then sets, for every node reachable from a root,
  usedIps = the sum of the direct children's totalIps (the recursion
  assigns child.usedIps but adds only child.totalIps to the parent's
  accumulator);
* the recursive unfolding is bounded by the fuel pools.length.  Under
  the pairwise-distinct-ids hypothesis of every tree claim this bound is
  never hit (proved below: any chain from a root is duplicate-free), so
  the reconstruction agrees with the mutated-object forest; pools on a
  parentId cycle are exactly the ones never reached from rootNodes, in
  the source as here.
Duplicate ids (where Map.set would overwrite) are outside every claim's
hypotheses and not modelled.
-/

/-- Stored pool record (the fields buildPoolTree and validateCIDR read;
rows coming from the database always carry an id — the source asserts
pool.id!). -/
structure IPPool where
  id : Int
  cidr : List Char
  parentId : Option Int
deriving DecidableEq, Repr

/-- Tree node of the builder's output (IPPool fields plus children,
totalIps, usedIps, level). -/
inductive PoolNode where
  | mk (id : Int) (cidr : List Char) (parentId : Option Int)
       (totalIps usedIps : Option ℚ) (level : Int)
       (children : List PoolNode)

def PoolNode.id : PoolNode → Int
  | .mk i _ _ _ _ _ _ => i

def PoolNode.cidr : PoolNode → List Char
  | .mk _ c _ _ _ _ _ => c

def PoolNode.parentId : PoolNode → Option Int
  | .mk _ _ p _ _ _ _ => p

def PoolNode.totalIps : PoolNode → Option ℚ
  | .mk _ _ _ t _ _ _ => t

def PoolNode.usedIps : PoolNode → Option ℚ
  | .mk _ _ _ _ u _ _ => u

def PoolNode.level : PoolNode → Int
  | .mk _ _ _ _ _ l _ => l

def PoolNode.children : PoolNode → List PoolNode
  | .mk _ _ _ _ _ _ ch => ch

/-- Current level of the node with a given id in the replayed level map. -/
def lookupLevel (m : List (Int × Int)) (k : Int) : Int :=
  match m.find? (fun e => e.1 == k) with
  | some e => e.2
  | none => 0

/-- Overwrite the level of the node with a given id (Map.set on an id
already present). -/
def setLevel (m : List (Int × Int)) (k : Int) (v : Int) : List (Int × Int) :=
  m.map (fun e => if e.1 == k then (k, v) else e)

/-- Replay of the level-assigning forEach of buildPoolTree: every node
starts at level 0; each non-root pool whose parentId is found in the map
gets level = (parent's level at that moment) + 1, in input order. -/
def computeLevels (pools : List IPPool) : List (Int × Int) :=
  pools.foldl
    (fun acc pool =>
      match pool.parentId with
      | none => acc
      | some pid =>
        if pools.any (fun q => q.id == pid) then
          setLevel acc pool.id (lookupLevel acc pid + 1)
        else acc)
    (pools.map (fun p => (p.id, 0)))

/-- Pools pushed onto this pool's node's children list: those whose
parentId is its id, in input order. -/
def kidsOf (pools : List IPPool) (pool : IPPool) : List IPPool :=
  pools.filter (fun q => q.parentId == some pool.id)

/-- Node for one pool: spread of the pool record, totalIps from
parseCIDR, usedIps as calculateUsedIps leaves it on every node reachable
from a root (sum over direct children of child.totalIps, NaN-propagating
as JS += does), level from the replayed level pass. -/
def mkNode (pools : List IPPool) (lv : List (Int × Int)) (pool : IPPool)
    (children : List PoolNode) : PoolNode :=
  .mk pool.id pool.cidr pool.parentId
    (parseCIDR pool.cidr).totalIps
    ((kidsOf pools pool).foldl
      (fun acc k => jsAddQ acc (parseCIDR k.cidr).totalIps) (some 0))
    (lookupLevel lv pool.id)
    children

/-- Fuel-bounded unfolding of a pool's subtree (see the section comment:
with pairwise distinct ids the fuel pools.length is never exhausted on a
node reachable from a root). -/
def buildNode (pools : List IPPool) (lv : List (Int × Int)) :
    Nat → IPPool → PoolNode
  | 0, pool => mkNode pools lv pool []
  | fuel + 1, pool =>
    mkNode pools lv pool
      ((kidsOf pools pool).map (fun q => buildNode pools lv fuel q))

/-- Source buildPoolTree: the returned rootNodes forest. -/
def buildPoolTree (pools : List IPPool) : List PoolNode :=
  (pools.filter (fun p => p.parentId == none)).map
    (fun p => buildNode pools (computeLevels pools) pools.length p)

mutual

/-- All nodes of a subtree (the node itself and its descendants), in
preorder. -/
def subnodes : PoolNode → List PoolNode
  | .mk i c p t u l ch => .mk i c p t u l ch :: subnodesList ch

/-- All nodes of a list of subtrees, in preorder. -/
def subnodesList : List PoolNode → List PoolNode
  | [] => []
  | n :: ns => subnodes n ++ subnodesList ns

end

/-- All nodes of the forest. -/
def allNodes (forest : List PoolNode) : List PoolNode :=
  subnodesList forest

/-- Parent record of a pool in the collection: the pool its parentId
resolves to, if any. -/
def parentLookup (pools : List IPPool) (p : IPPool) : Option IPPool :=
  match p.parentId with
  | none => none
  | some pid => pools.find? (fun q => q.id == pid)

/-- Iterated parent lookup: follow parentId upward k times. -/
def iterParent (pools : List IPPool) : Nat → IPPool → Option IPPool
  | 0, p => some p
  | k + 1, p =>
    match parentLookup pools p with
    | none => none
    | some q => iterParent pools k q

/-!
Candidate validation, from the component's validateCIDR, and db.ts's
cidrExists.
-/

/-- Outcome of the component's validateCIDR (each constructor is one of
the setValidationError calls; empty and ok both clear the error — kept
separate to record which path ran). -/
inductive ValidationResult where
  | empty
  | invalidFormat
  | duplicate
  | notInParent
  | overlap (sibling : IPPool)
  | ok
deriving DecidableEq, Repr

/-- Source db.ts cidrExists: SELECT COUNT(*) FROM ip_pools WHERE cidr = ?,
modelled as a scan of the same collection the component holds in its
pools state (the table and the state are the same rows). -/
def cidrExists (pools : List IPPool) (cidr : List Char) : Bool :=
  pools.any (fun p => p.cidr == cidr)

/-- Source validateCIDR(cidr, parentId) against the pools state:
1. empty cidr clears the error;
2. reject when isValidCIDR fails;
3. adopt normalizeCIDR(cidr) and continue with it;
4. reject when the normalized cidr already exists;
5. when parentId is non-null AND resolves to a pool, reject if the
   candidate is not within that pool's range (an unresolved parentId
   skips this check entirely — there is no parent-not-found outcome);
6. reject on the first sibling (same parentId) whose range overlaps;
7. otherwise clear the error (ok). -/
def validateCIDR (pools : List IPPool) (cidr : List Char)
    (parentId : Option Int) : ValidationResult :=
  if cidr = [] then .empty
  else if !(isValidCIDR cidr) then .invalidFormat
  else
    let cidr := normalizeCIDR cidr
    if cidrExists pools cidr then .duplicate
    else
      let afterParent : ValidationResult :=
        match (pools.filter (fun p => p.parentId == parentId)).find?
            (fun s => cidrsOverlap cidr s.cidr) with
        | some s => .overlap s
        | none => .ok
      match parentId with
      | some pid =>
        match pools.find? (fun p => p.id == pid) with
        | some parent =>
          if !(isChildOfParent cidr parent.cidr) then .notInParent
          else afterParent
        | none => afterParent
      | none => afterParent

/-!
Spec-side definitions used by claim statements.
-/

/-- Canonical dotted-decimal rendering of four octet values (a valid IPv4
address written without leading zeros, as the claims quantify over). -/
def renderIp (a b c d : Nat) : List Char :=
  joinSep '.' [toDecimal a, toDecimal b, toDecimal c, toDecimal d]

/-- Strict CIDR well-formedness in the words of the claims: exactly one
'/'-separated pair, the ip exactly four dot-separated all-digit octet
strings with values in [0,255], the prefix an all-digit string with value
in [8,32]; no extra characters, no whitespace. -/
def specStrictCIDR (s : List Char) : Bool :=
  match splitOn '/' s with
  | [ip, pre] =>
    (match splitOn '.' ip with
     | [a, b, c, d] =>
       (!a.isEmpty && a.all Char.isDigit && decide (digitsVal a ≤ 255)) &&
       (!b.isEmpty && b.all Char.isDigit && decide (digitsVal b ≤ 255)) &&
       (!c.isEmpty && c.all Char.isDigit && decide (digitsVal c ≤ 255)) &&
       (!d.isEmpty && d.all Char.isDigit && decide (digitsVal d ≤ 255))
     | _ => false) &&
    (!pre.isEmpty && pre.all Char.isDigit &&
     decide (8 ≤ digitsVal pre) && decide (digitsVal pre ≤ 32))
  | _ => false

mutual

/-- Claimed value of usedIps: the sum of totalIps over all descendants,
written as the claim's equivalent recursion — over direct children of
(child.totalIps + that child's own descendant sum). -/
def descTotalSum : PoolNode → Option ℚ
  | .mk _ _ _ _ _ _ ch => descTotalSumList ch

/-- Sum over a children list of (child.totalIps + child's descendant sum). -/
def descTotalSumList : List PoolNode → Option ℚ
  | [] => some 0
  | n :: ns => jsAddQ (jsAddQ (descTotalSumList ns) n.totalIps) (descTotalSum n)

end

/-!
Character and digit-string lemmas.
-/

theorem isWS_eq_false_of_isDigit {c : Char} (h : c.isDigit = true) :
    isWS c = false := by
  by_contra hne
  have hws : isWS c = true := by
    cases hcase : isWS c
    · exact absurd hcase hne
    · rfl
  simp only [isWS, Bool.or_eq_true, decide_eq_true_eq] at hws
  rcases hws with ((((h1 | h1) | h1) | h1) | h1) | h1 <;>
    (subst h1; exact absurd h (by decide))

theorem ne_dash_of_isDigit {c : Char} (h : c.isDigit = true) : c ≠ '-' := by
  intro he; subst he; exact absurd h (by decide)

theorem ne_plus_of_isDigit {c : Char} (h : c.isDigit = true) : c ≠ '+' := by
  intro he; subst he; exact absurd h (by decide)

theorem ne_dot_of_isDigit {c : Char} (h : c.isDigit = true) : c ≠ '.' := by
  intro he; subst he; exact absurd h (by decide)

theorem ne_slash_of_isDigit {c : Char} (h : c.isDigit = true) : c ≠ '/' := by
  intro he; subst he; exact absurd h (by decide)

theorem dropWhile_eq_self_of_none {p : Char → Bool} {l : List Char}
    (h : ∀ c ∈ l, p c = false) : l.dropWhile p = l := by
  cases l with
  | nil => rfl
  | cons c rest =>
    simp [List.dropWhile, h c (by simp)]

theorem takeWhile_eq_self_of_all {p : Char → Bool} {l : List Char}
    (h : ∀ c ∈ l, p c = true) : l.takeWhile p = l := by
  induction l with
  | nil => rfl
  | cons c rest ih =>
    simp only [List.takeWhile, h c (by simp)]
    exact congrArg (c :: ·) (ih fun x hx => h x (by simp [hx]))

theorem trimWS_eq_self_of_digits {l : List Char}
    (h : ∀ c ∈ l, c.isDigit = true) : trimWS l = l := by
  unfold trimWS
  rw [dropWhile_eq_self_of_none (fun c hc => isWS_eq_false_of_isDigit (h c hc))]
  rw [dropWhile_eq_self_of_none
    (fun c hc => isWS_eq_false_of_isDigit (h c (List.mem_reverse.mp hc)))]
  exact List.reverse_reverse l

theorem digitsVal_append_singleton (xs : List Char) (d : Char) :
    digitsVal (xs ++ [d]) = 10 * digitsVal xs + (d.toNat - 48) := by
  simp [digitsVal, List.foldl_append]

theorem digitChar_isDigit {m : Nat} (h : m < 10) :
    (Char.ofNat (48 + m)).isDigit = true := by
  interval_cases m <;> decide

theorem digitChar_toNat {m : Nat} (h : m < 10) :
    (Char.ofNat (48 + m)).toNat = 48 + m := by
  interval_cases m <;> decide

theorem toDecimalAux_eq (fuel fuel' n : Nat) (h : n < fuel) (h' : n < fuel') :
    toDecimalAux fuel n = toDecimalAux fuel' n := by
  induction fuel generalizing fuel' n with
  | zero => omega
  | succ f ih =>
    cases fuel' with
    | zero => omega
    | succ f' =>
      unfold toDecimalAux
      by_cases h10 : n < 10
      · simp [h10]
      · simp only [h10, if_false]
        rw [ih f' (n / 10) (by omega) (by omega)]

theorem toDecimal_floor (n : Nat) (h : 10 ≤ n) :
    toDecimal n = toDecimal (n / 10) ++ [Char.ofNat (48 + n % 10)] := by
  show toDecimalAux (n + 1) n = toDecimalAux (n / 10 + 1) (n / 10) ++ _
  conv_lhs => unfold toDecimalAux
  rw [if_neg (show ¬n < 10 by omega),
    toDecimalAux_eq n (n / 10 + 1) (n / 10) (by omega) (by omega)]

theorem toDecimal_small (n : Nat) (h : n < 10) :
    toDecimal n = [Char.ofNat (48 + n)] := by
  show toDecimalAux (n + 1) n = _
  unfold toDecimalAux
  simp [h]

theorem toDecimal_ne_nil (n : Nat) : toDecimal n ≠ [] := by
  by_cases h : n < 10
  · rw [toDecimal_small n h]
    simp
  · rw [toDecimal_floor n (by omega)]
    simp

theorem toDecimal_digits (n : Nat) : ∀ c ∈ toDecimal n, c.isDigit = true := by
  induction n using Nat.strong_induction_on with
  | _ n ih =>
    by_cases h : n < 10
    · rw [toDecimal_small n h]
      intro c hc
      simp only [List.mem_singleton] at hc
      subst hc
      exact digitChar_isDigit h
    · rw [toDecimal_floor n (by omega)]
      intro c hc
      rcases List.mem_append.mp hc with h1 | h1
      · exact ih (n / 10) (Nat.div_lt_self (by omega) (by omega)) c h1
      · simp only [List.mem_singleton] at h1
        subst h1
        exact digitChar_isDigit (Nat.mod_lt _ (by omega))

theorem digitsVal_toDecimal (n : Nat) : digitsVal (toDecimal n) = n := by
  induction n using Nat.strong_induction_on with
  | _ n ih =>
    by_cases h : n < 10
    · rw [toDecimal_small n h]
      simp [digitsVal, digitChar_toNat h]
    · rw [toDecimal_floor n (by omega), digitsVal_append_singleton,
        ih (n / 10) (Nat.div_lt_self (by omega) (by omega)),
        digitChar_toNat (Nat.mod_lt _ (by omega))]
      omega

/-!
Parsing of canonical digit strings.
-/

theorem jsNumber_digits {l : List Char} (hne : l ≠ [])
    (hd : ∀ c ∈ l, c.isDigit = true) :
    jsNumber l = some ((digitsVal l : Int)) := by
  unfold jsNumber
  rw [trimWS_eq_self_of_digits hd]
  cases l with
  | nil => exact absurd rfl hne
  | cons c rest =>
    have hc := hd c (by simp)
    have h1 : ((c :: rest).head? == some '-') = false := by
      simp [ne_dash_of_isDigit hc]
    have h2 : ((c :: rest).head? == some '+') = false := by
      simp [ne_plus_of_isDigit hc]
    have hall : (c :: rest).all Char.isDigit = true := List.all_eq_true.mpr hd
    simp [h1, h2, hall, ne_dash_of_isDigit hc, ne_plus_of_isDigit hc, hd]

theorem parseIntJS_digits {l : List Char} (hne : l ≠ [])
    (hd : ∀ c ∈ l, c.isDigit = true) :
    parseIntJS l = some ((digitsVal l : Int)) := by
  unfold parseIntJS
  rw [dropWhile_eq_self_of_none (fun c hc => isWS_eq_false_of_isDigit (hd c hc))]
  cases l with
  | nil => exact absurd rfl hne
  | cons c rest =>
    have hc := hd c (by simp)
    have h1 : ((c :: rest).head? == some '-') = false := by
      simp [ne_dash_of_isDigit hc]
    have h2 : ((c :: rest).head? == some '+') = false := by
      simp [ne_plus_of_isDigit hc]
    simp only [h1, h2, Bool.or_self, Bool.false_eq_true, if_false]
    rw [takeWhile_eq_self_of_all hd]
    simp [hne]

/-!
Lemmas about splitOn.
-/

theorem splitOn_cons (sep c : Char) (rest : List Char) :
    splitOn sep (c :: rest) =
      match splitOn sep rest with
      | [] => [[]]
      | p :: ps => if c = sep then [] :: p :: ps else (c :: p) :: ps := rfl

theorem splitOn_ne_nil (sep : Char) (l : List Char) : splitOn sep l ≠ [] := by
  cases l with
  | nil => simp [splitOn]
  | cons c rest =>
    rw [splitOn_cons]
    cases splitOn sep rest with
    | nil => simp
    | cons p ps =>
      by_cases h : c = sep <;> simp [h]

theorem splitOn_of_not_mem {sep : Char} {l : List Char} (h : sep ∉ l) :
    splitOn sep l = [l] := by
  induction l with
  | nil => rfl
  | cons c rest ih =>
    have hcs : c ≠ sep := fun he => h (by simp [he])
    have hrest : sep ∉ rest := fun he => h (by simp [he])
    rw [splitOn_cons, ih hrest]
    simp [hcs]

theorem splitOn_append_sep {sep : Char} {xs ys : List Char} (h : sep ∉ xs) :
    splitOn sep (xs ++ sep :: ys) = xs :: splitOn sep ys := by
  induction xs with
  | nil =>
    simp only [List.nil_append]
    rw [splitOn_cons]
    cases hcase : splitOn sep ys with
    | nil => exact absurd hcase (splitOn_ne_nil sep ys)
    | cons p ps => simp
  | cons c rest ih =>
    have hcs : c ≠ sep := fun he => h (by simp [he])
    have hrest : sep ∉ rest := fun he => h (by simp [he])
    simp only [List.cons_append]
    rw [splitOn_cons, ih hrest]
    simp [hcs]

theorem splitOn_renderIp (a b c d : Nat) :
    splitOn '.' (renderIp a b c d) =
      [toDecimal a, toDecimal b, toDecimal c, toDecimal d] := by
  have hmem : ∀ n : Nat, '.' ∉ toDecimal n := by
    intro n hm
    exact ne_dot_of_isDigit (toDecimal_digits n '.' hm) rfl
  show splitOn '.' (toDecimal a ++ '.' ::
    (toDecimal b ++ '.' :: (toDecimal c ++ '.' :: toDecimal d))) = _
  rw [splitOn_append_sep (hmem a), splitOn_append_sep (hmem b),
    splitOn_append_sep (hmem c), splitOn_of_not_mem (hmem d)]

/-!
Arithmetic lemmas for the 32-bit coercions.
-/

theorem pat32_lt (x : Int) : pat32 x < 2 ^ 32 := by
  unfold pat32 toUint32n
  omega

theorem pat32_coe (x : Int) : ((pat32 x : Nat) : Int) = x % 2 ^ 32 := by
  unfold pat32 toUint32n
  omega

theorem pat32_ofNat {m : Nat} (h : m < 2 ^ 32) : pat32 ((m : Nat) : Int) = m := by
  unfold pat32 toUint32n
  omega

theorem toInt32n_of_small {x : Int} (h0 : 0 ≤ x) (h : x < 2 ^ 31) :
    toInt32n x = x := by
  unfold toInt32n
  omega

theorem toInt32n_of_big {x : Int} (h0 : 2 ^ 31 ≤ x) (h : x < 2 ^ 32) :
    toInt32n x = x - 2 ^ 32 := by
  unfold toInt32n
  omega

theorem toInt32n_pat32 (x : Int) : toInt32n ((pat32 x : Nat) : Int) = toInt32n x := by
  unfold toInt32n pat32 toUint32n
  omega

theorem pat32_toInt32n (x : Int) : pat32 (toInt32n x) = pat32 x := by
  unfold pat32 toUint32n toInt32n
  split <;> omega

theorem jsShrU_val (x : Int) {k : Nat} (hk : k < 32) :
    jsShrU x k = ((pat32 x / 2 ^ k : Nat) : Int) := by
  unfold jsShrU
  rw [Nat.mod_eq_of_lt hk]

theorem jsShrU_zero (x : Int) : jsShrU x 0 = ((pat32 x : Nat) : Int) := by
  rw [jsShrU_val x (by omega)]
  simp

theorem jsAnd_255 (x : Int) : jsAnd x 255 = ((pat32 x % 256 : Nat) : Int) := by
  unfold jsAnd
  have h255 : pat32 ((255 : Int)) = 255 := by
    have : ((255 : Nat) : Int) = (255 : Int) := by norm_num
    rw [← this, pat32_ofNat (by norm_num)]
  rw [h255]
  have hand : pat32 x &&& 255 = pat32 x % 256 := by
    have := Nat.and_pow_two_sub_one_eq_mod (pat32 x) 8
    norm_num at this
    exact this
  rw [hand]
  exact toInt32n_of_small (by positivity) (by
    have : pat32 x % 256 < 256 := Nat.mod_lt _ (by norm_num)
    omega)

/-!
Round trip between numberToIp and ipToNumber.
-/

theorem option_join_some {A : Type} (x : Option A) : (some x).join = x := rfl

theorem numberToIp_eq_render (x : Int) :
    numberToIp x =
      renderIp (pat32 x / 2 ^ 24) (pat32 x / 2 ^ 16 % 256)
        (pat32 x / 2 ^ 8 % 256) (pat32 x % 256) := by
  have hx := pat32_lt x
  have jsNumToStr_nat : ∀ m : Nat, jsNumToStr ((m : Nat) : Int) = toDecimal m := by
    intro m
    unfold jsNumToStr
    rw [if_neg (by omega)]
    simp
  have comp : ∀ k : Nat, k < 32 →
      jsNumToStr (jsAnd (jsShrU x k) 255) = toDecimal (pat32 x / 2 ^ k % 256) := by
    intro k hk
    rw [jsShrU_val x hk, jsAnd_255, pat32_ofNat (by
      have : pat32 x / 2 ^ k ≤ pat32 x := Nat.div_le_self _ _
      omega)]
    exact jsNumToStr_nat _
  have h24 : pat32 x / 2 ^ 24 % 256 = pat32 x / 2 ^ 24 := by
    apply Nat.mod_eq_of_lt
    omega
  have hlast : jsNumToStr (jsAnd x 255) = toDecimal (pat32 x % 256) := by
    rw [jsAnd_255]
    exact jsNumToStr_nat _
  unfold numberToIp renderIp
  rw [comp 24 (by omega), comp 16 (by omega), comp 8 (by omega), hlast, h24]

theorem ipToNumber_render (a b c d : Nat)
    (ha : a ≤ 255) (hb : b ≤ 255) (hc : c ≤ 255) (hd : d ≤ 255) :
    ipToNumber (renderIp a b c d) =
      some (toInt32n ((a * 2 ^ 24 + b * 2 ^ 16 + c * 2 ^ 8 + d : Nat) : Int)) := by
  have hparse : ∀ n : Nat, jsNumber (toDecimal n) = some ((n : Int)) := by
    intro n
    rw [jsNumber_digits (toDecimal_ne_nil n) (toDecimal_digits n),
      digitsVal_toDecimal]
  have hv : ∀ v : Nat, v ≤ 255 → toInt32n ((v : Int)) = (v : Int) := by
    intro v hvle
    exact toInt32n_of_small (by positivity) (by omega)
  unfold ipToNumber
  rw [splitOn_renderIp]
  simp only [List.map_cons, List.map_nil, hparse, List.getElem?_cons_zero,
    List.getElem?_cons_succ, option_join_some]
  show some (jsShl (some ((a : Int))) (some 24) + jsShl (some ((b : Int))) (some 16) +
      jsShl (some ((c : Int))) (some 8) + ((d : Int))) = _
  have hk24 : pat32 ((24 : Int)) % 32 = 24 := by decide
  have hk16 : pat32 ((16 : Int)) % 32 = 16 := by decide
  have hk8 : pat32 ((8 : Int)) % 32 = 8 := by decide
  have e24 : jsShl (some ((a : Int))) (some 24) = toInt32n ((a : Int) * 2 ^ 24) := by
    unfold jsShl
    simp only [Option.getD_some]
    rw [hk24, hv a ha]
  have e16 : jsShl (some ((b : Int))) (some 16) = (b : Int) * 2 ^ 16 := by
    unfold jsShl
    simp only [Option.getD_some]
    rw [hk16, hv b hb]
    exact toInt32n_of_small (by omega) (by omega)
  have e8 : jsShl (some ((c : Int))) (some 8) = (c : Int) * 2 ^ 8 := by
    unfold jsShl
    simp only [Option.getD_some]
    rw [hk8, hv c hc]
    exact toInt32n_of_small (by omega) (by omega)
  rw [e24, e16, e8, Option.some_inj]
  unfold toInt32n
  push_cast
  split <;> split <;> omega

theorem ipToNumber_numberToIp (x : Int) :
    ipToNumber (numberToIp x) = some (toInt32n x) := by
  have hx := pat32_lt x
  rw [numberToIp_eq_render,
    ipToNumber_render _ _ _ _ (by omega) (by omega) (by omega) (by omega)]
  have hsum : (pat32 x / 2 ^ 24) * 2 ^ 24 + (pat32 x / 2 ^ 16 % 256) * 2 ^ 16 +
      (pat32 x / 2 ^ 8 % 256) * 2 ^ 8 + pat32 x % 256 = pat32 x := by
    omega
  rw [hsum, toInt32n_pat32]

/-!
Claim C5: isValidCIDR versus the strict format of the spec sentence.
-/

theorem parseIntJS_digits_of_flags {l : List Char} (hne : l.isEmpty = false)
    (hd : l.all Char.isDigit = true) :
    parseIntJS l = some ((digitsVal l : Int)) :=
  parseIntJS_digits (by cases l <;> simp_all) (List.all_eq_true.mp hd)

theorem validOctet_of_digits {l : List Char} (he : l.isEmpty = false)
    (hd : l.all Char.isDigit = true) (h255 : digitsVal l ≤ 255) :
    (match parseIntJS l with
     | none => false
     | some num => decide (0 ≤ num) && decide (num ≤ 255)) = true := by
  rw [parseIntJS_digits_of_flags he hd]
  show (decide ((0 : Int) ≤ ((digitsVal l : Int))) &&
    decide (((digitsVal l : Int)) ≤ 255)) = true
  simp only [Bool.and_eq_true, decide_eq_true_eq]
  omega

/-- Claim C5, counterexample: the octet 1a carries a trailing non-numeric
character, so the claim requires rejection, but parseInt accepts it as 1
and isValidCIDR returns true. -/
theorem c5_counterexample :
    isValidCIDR "10.0.0.1a/24".toList = true ∧
    specStrictCIDR "10.0.0.1a/24".toList = false := by
  decide

/-- Claim C5 (amended): every string of the strict claimed form — exactly
one '/'-separated pair, four dot-separated all-digit octets in [0,255],
an all-digit prefix in [8,32] — is accepted by isValidCIDR; the converse
direction of the claim fails (see the counterexample), because parseInt
also accepts octets and prefixes with trailing non-numeric characters and
leading whitespace. -/
theorem c5_strict_accepted (s : List Char) (h : specStrictCIDR s = true) :
    isValidCIDR s = true := by
  unfold specStrictCIDR at h
  rcases hsplit : splitOn '/' s with _ | ⟨ip, _ | ⟨pre, rest⟩⟩
  · rw [hsplit] at h
    simp at h
  · rw [hsplit] at h
    simp at h
  · cases rest with
    | cons x xs =>
      rw [hsplit] at h
      simp at h
    | nil =>
      rw [hsplit] at h
      simp only [Bool.and_eq_true, Bool.not_eq_true', decide_eq_true_eq] at h
      obtain ⟨hip, ⟨⟨hpreE, hpreD⟩, hpre8⟩, hpre32⟩ := h
      unfold isValidCIDR
      rw [hsplit]
      simp only [List.length_cons, List.length_nil]
      norm_num
      rw [parseIntJS_digits_of_flags hpreE hpreD]
      show (isValidIp ip && (decide ((8 : Int) ≤ ((digitsVal pre : Int))) &&
        decide (((digitsVal pre : Int)) ≤ 32))) = true
      simp only [Bool.and_eq_true, decide_eq_true_eq]
      refine ⟨?_, by omega, by omega⟩
      rcases hsplit2 : splitOn '.' ip with _ | ⟨a, _ | ⟨b, _ | ⟨c, _ | ⟨d, rest2⟩⟩⟩⟩ <;>
        rw [hsplit2] at hip
      · simp at hip
      · simp at hip
      · simp at hip
      · simp at hip
      · cases rest2 with
        | cons y ys => simp at hip
        | nil =>
          simp only [Bool.and_eq_true, Bool.not_eq_true', decide_eq_true_eq] at hip
          obtain ⟨⟨⟨⟨⟨haE, haD⟩, ha255⟩, ⟨⟨hbE, hbD⟩, hb255⟩⟩,
            ⟨⟨hcE, hcD⟩, hc255⟩⟩, ⟨⟨hdE, hdD⟩, hd255⟩⟩ := hip
          unfold isValidIp
          rw [hsplit2]
          simp only [List.length_cons, List.length_nil, List.all_cons,
            List.all_nil]
          norm_num
          rw [validOctet_of_digits haE haD ha255,
            validOctet_of_digits hbE hbD hb255,
            validOctet_of_digits hcE hcD hc255,
            validOctet_of_digits hdE hdD hd255]
          exact ⟨rfl, rfl, rfl, rfl⟩

/-- Claim C5, witness for the amended theorem at 10.0.0.0/24. -/
theorem c5_witness :
    specStrictCIDR "10.0.0.0/24".toList = true ∧
    isValidCIDR "10.0.0.0/24".toList = true :=
  ⟨by decide, c5_strict_accepted _ (by decide)⟩

/-!
Claim C6: what ipToNumber actually returns.
-/

/-- Claim C6, counterexample: for 128.0.0.0 the claim requires the
unsigned value 128 * 2^24 = 2147483648 in [0, 2^32), but the signed <<
of the source yields -2147483648. -/
theorem c6_counterexample :
    ipToNumber "128.0.0.0".toList = some (-2147483648) ∧
    ((-2147483648 : Int) ≠ 128 * 2 ^ 24 ∧ ¬(0 ≤ (-2147483648 : Int))) := by
  constructor
  · decide
  · constructor
    · decide
    · decide

/-- Claim C6 (amended): ipToNumber computes with the signed 32-bit shift
of JS, so for a.b.c.d it returns the ToInt32 reinterpretation of the
unsigned value N = a*2^24 + b*2^16 + c*2^8 + d: N itself when a < 128,
and N - 2^32 (a negative number) when a >= 128; the result lies in
[-2^31, 2^31), not in [0, 2^32) as claimed.  The unsigned normalization
happens only later, at the >>> 0 sites of parseCIDR. -/
theorem c6_ipToNumber_signed (a b c d : Nat)
    (ha : a ≤ 255) (hb : b ≤ 255) (hc : c ≤ 255) (hd : d ≤ 255) :
    ipToNumber (renderIp a b c d) =
      some (((a * 2 ^ 24 + b * 2 ^ 16 + c * 2 ^ 8 + d : Nat) : Int) -
        (if 128 ≤ a then (2 ^ 32 : Int) else 0)) ∧
    (-(2 ^ 31) : Int) ≤ ((a * 2 ^ 24 + b * 2 ^ 16 + c * 2 ^ 8 + d : Nat) : Int) -
        (if 128 ≤ a then (2 ^ 32 : Int) else 0) ∧
      ((a * 2 ^ 24 + b * 2 ^ 16 + c * 2 ^ 8 + d : Nat) : Int) -
        (if 128 ≤ a then (2 ^ 32 : Int) else 0) < 2 ^ 31 := by
  refine ⟨?_, ?_, ?_⟩
  · rw [ipToNumber_render a b c d ha hb hc hd, Option.some_inj]
    unfold toInt32n
    split
    · next hlt =>
      rw [if_neg (by omega)]
      omega
    · next hge =>
      rw [if_pos (by omega)]
      omega
  · split <;> omega
  · split <;> omega

/-- Claim C6, witness for the amended theorem at 192.168.1.1 (first octet
at least 128, hence a negative result). -/
theorem c6_witness :
    (192 : Nat) ≤ 255 ∧
    ipToNumber (renderIp 192 168 1 1) =
      some (((192 * 2 ^ 24 + 168 * 2 ^ 16 + 1 * 2 ^ 8 + 1 : Nat) : Int) -
        (if 128 ≤ (192 : Nat) then (2 ^ 32 : Int) else 0)) :=
  ⟨by decide,
    (c6_ipToNumber_signed 192 168 1 1 (by decide) (by decide) (by decide)
      (by decide)).1⟩

/-!
Claim C9: the numberToIp / ipToNumber round trip.
-/

/-- Claim C9 (confirmed): for every valid IPv4 address written as four
octets in [0,255] without leading zeros, numberToIp(ipToNumber(ip))
equals ip, including addresses with first octet at least 128 — even
though ipToNumber is negative there, the >>> shifts of numberToIp
reduce mod 2^32 and recover every octet. -/
theorem c9_roundtrip (a b c d : Nat)
    (ha : a ≤ 255) (hb : b ≤ 255) (hc : c ≤ 255) (hd : d ≤ 255) :
    (ipToNumber (renderIp a b c d)).map numberToIp = some (renderIp a b c d) := by
  rw [ipToNumber_render a b c d ha hb hc hd]
  show some (numberToIp _) = _
  rw [Option.some_inj, numberToIp_eq_render]
  have hN : (a * 2 ^ 24 + b * 2 ^ 16 + c * 2 ^ 8 + d : Nat) < 2 ^ 32 := by omega
  rw [show pat32 (toInt32n ((a * 2 ^ 24 + b * 2 ^ 16 + c * 2 ^ 8 + d : Nat) : Int)) =
      (a * 2 ^ 24 + b * 2 ^ 16 + c * 2 ^ 8 + d : Nat) from by
    rw [pat32_toInt32n, pat32_ofNat hN]]
  rw [show (a * 2 ^ 24 + b * 2 ^ 16 + c * 2 ^ 8 + d) / 2 ^ 24 = a from by omega,
    show (a * 2 ^ 24 + b * 2 ^ 16 + c * 2 ^ 8 + d) / 2 ^ 16 % 256 = b from by omega,
    show (a * 2 ^ 24 + b * 2 ^ 16 + c * 2 ^ 8 + d) / 2 ^ 8 % 256 = c from by omega,
    show (a * 2 ^ 24 + b * 2 ^ 16 + c * 2 ^ 8 + d) % 256 = d from by omega]

/-- Claim C9, witness at 192.168.1.1 (first octet at least 128). -/
theorem c9_witness :
    (192 : Nat) ≤ 255 ∧
    (ipToNumber (renderIp 192 168 1 1)).map numberToIp =
      some (renderIp 192 168 1 1) :=
  ⟨by decide,
    c9_roundtrip 192 168 1 1 (by decide) (by decide) (by decide) (by decide)⟩

/-!
Claims C7 and C8: the overlap and containment predicates against the
unsigned [network, broadcast] intervals.  The source compares the two
ToInt32 (signed) reinterpretations of the unsigned endpoints; the
comparisons agree with the unsigned ones because a block with prefix at
least 8 lies entirely in one half of the 32-bit space (its network and
broadcast share the top bit).
-/

theorem nat_le_or_left (a : Nat) : ∀ b : Nat, a ≤ a ||| b := by
  induction a using Nat.strong_induction_on with
  | _ a ih =>
    intro b
    rcases Nat.eq_zero_or_pos a with rfl | hpos
    · exact Nat.zero_le _
    · have e1 : (a ||| b) / 2 = a / 2 ||| b / 2 := Nat.or_div_two
      have e2 : a / 2 ≤ a / 2 ||| b / 2 :=
        ih (a / 2) (Nat.div_lt_self hpos (by omega)) (b / 2)
      have e3 : a % 2 = 1 → (a ||| b) % 2 = 1 :=
        fun h => Nat.or_mod_two_eq_one.mpr (Or.inl h)
      omega

theorem lt_two31_iff_testBit {n : Nat} (h : n < 2 ^ 32) :
    n < 2 ^ 31 ↔ n.testBit 31 = false := by
  simp only [Nat.testBit_to_div_mod, decide_eq_false_iff_not]
  omega

theorem pat32_jsAnd (a b : Int) : pat32 (jsAnd a b) = pat32 a &&& pat32 b := by
  unfold jsAnd
  rw [pat32_toInt32n, pat32_ofNat (Nat.and_lt_two_pow _ (pat32_lt b))]

theorem pat32_jsOr (a b : Int) : pat32 (jsOr a b) = pat32 a ||| pat32 b := by
  unfold jsOr
  rw [pat32_toInt32n, pat32_ofNat (Nat.or_lt_two_pow (pat32_lt a) (pat32_lt b))]

theorem pat32_jsNot (a : Int) : pat32 (jsNot a) = pat32 a ^^^ (2 ^ 32 - 1) := by
  unfold jsNot
  rw [pat32_toInt32n, pat32_ofNat (Nat.xor_lt_two_pow (pat32_lt a) (by norm_num))]

/-- Prefix-length extraction from a valid CIDR: the parsed prefix number
exists and lies in [8, 32]. -/
theorem valid_cidrPfx {c : List Char} (h : isValidCIDR c = true) :
    ∃ p : Int, cidrPfx c = some p ∧ 8 ≤ p ∧ p ≤ 32 := by
  unfold isValidCIDR at h
  rcases hsplit : splitOn '/' c with _ | ⟨ip, _ | ⟨pre, rest⟩⟩ <;> rw [hsplit] at h
  · simp at h
  · simp at h
  · cases rest with
    | cons x xs => simp at h
    | nil =>
      simp only [List.length_cons, List.length_nil] at h
      norm_num at h
      unfold cidrPfx
      rw [hsplit]
      simp only [List.getElem?_cons_zero, List.getElem?_cons_succ]
      cases hp : parseIntJS pre with
      | none =>
        rw [hp] at h
        simp at h
      | some n =>
        rw [hp] at h
        simp only [Bool.and_eq_true, decide_eq_true_eq] at h
        exact ⟨n, rfl, h.2.1, h.2.2⟩

/-- Value of the mask for a prefix p in [8, 32]: the unsigned number
2^32 - 2^(32-p), whose top 8 bits are set. -/
theorem cidrMask_val {c : List Char} {p : Int} (hp : cidrPfx c = some p)
    (h8 : 8 ≤ p) (h32 : p ≤ 32) :
    cidrMask c = (((2 ^ 32 - 2 ^ (32 - p).toNat : Nat) : Nat) : Int) := by
  unfold cidrMask
  rw [hp]
  simp only [Option.map_some']
  set k : Nat := (32 - p).toNat with hk
  have hk24 : k ≤ 24 := by omega
  have hpow : (1 : Nat) ≤ 2 ^ k ∧ (2 : Nat) ^ k ≤ 2 ^ 24 := by
    constructor
    · exact Nat.one_le_two_pow
    · exact Nat.pow_le_pow_right (by omega) hk24
  have hsub : ((32 : Int) - p) = ((k : Nat) : Int) := by omega
  rw [hsub]
  unfold jsShl
  simp only [Option.getD_some]
  have hpat : pat32 ((k : Nat) : Int) % 32 = k := by
    rw [pat32_ofNat (by omega)]
    omega
  rw [hpat]
  have hneg1 : toInt32n (-1) = -1 := by
    unfold toInt32n
    omega
  rw [hneg1]
  have hpowcast : ((2 : Int) ^ k) = ((2 ^ k : Nat) : Int) := by
    push_cast
    ring
  have hshl : toInt32n (-1 * 2 ^ k) = -(((2 ^ k : Nat) : Int)) := by
    unfold toInt32n
    rw [hpowcast]
    omega
  rw [hshl]
  unfold jsShrU
  have : pat32 (-(((2 ^ k : Nat) : Int))) = 2 ^ 32 - 2 ^ k := by
    unfold pat32 toUint32n
    omega
  rw [this]
  norm_num

/-- Endpoint facts for any valid CIDR: both endpoints are unsigned 32-bit
values, network <= broadcast, and both lie in the same half of the 32-bit
space (the claim's prefix range [8,32] keeps the top 8 bits of the mask
set, so | ~mask cannot change the top bit). -/
theorem cidr_endpoints {c : List Char} (h : isValidCIDR c = true) :
    0 ≤ cidrNetwork c ∧ cidrNetwork c < 2 ^ 32 ∧
    0 ≤ cidrBroadcast c ∧ cidrBroadcast c < 2 ^ 32 ∧
    (cidrNetwork c < 2 ^ 31 ↔ cidrBroadcast c < 2 ^ 31) ∧
    cidrNetwork c ≤ cidrBroadcast c := by
  obtain ⟨p, hp, h8, h32⟩ := valid_cidrPfx h
  have hmask := cidrMask_val hp h8 h32
  set k : Nat := (32 - p).toNat with hk
  have hk24 : k ≤ 24 := by omega
  have hpow1 : (0 : Nat) < 2 ^ k := Nat.two_pow_pos k
  have hpow2 : (2 : Nat) ^ k ≤ 2 ^ 24 := Nat.pow_le_pow_right (by omega) hk24
  set M : Nat := 2 ^ 32 - 2 ^ k with hM
  have hMlt : M < 2 ^ 32 := by omega
  have hM31 : 2 ^ 31 ≤ M := by omega
  have hpatM : pat32 (cidrMask c) = M := by
    rw [hmask, pat32_ofNat hMlt]
  have hnet : cidrNetwork c = ((pat32 ((cidrIpNum c).getD 0) &&& M : Nat) : Int) := by
    unfold cidrNetwork
    rw [jsShrU_zero, pat32_jsAnd, hpatM]
  set nN : Nat := pat32 ((cidrIpNum c).getD 0) &&& M with hnN
  have hnNlt : nN < 2 ^ 32 := Nat.and_lt_two_pow _ hMlt
  have hr : pat32 (jsNot (cidrMask c)) = M ^^^ (2 ^ 32 - 1) := by
    rw [pat32_jsNot, hpatM]
  set r : Nat := M ^^^ (2 ^ 32 - 1) with hrdef
  have hrlt : r < 2 ^ 32 := Nat.xor_lt_two_pow hMlt (by norm_num)
  have hrbit : r.testBit 31 = false := by
    rw [hrdef, Nat.testBit_xor, Nat.testBit_two_pow_sub_one]
    have hMbit : M.testBit 31 = true := by
      cases hbit : M.testBit 31 with
      | false =>
        exact absurd ((lt_two31_iff_testBit hMlt).mpr hbit) (by omega)
      | true => rfl
    rw [hMbit]
    decide
  have hr31 : r < 2 ^ 31 := (lt_two31_iff_testBit hrlt).mpr hrbit
  have hbroad : cidrBroadcast c = ((nN ||| r : Nat) : Int) := by
    unfold cidrBroadcast
    rw [jsShrU_zero, pat32_jsOr, hr, hnet, pat32_ofNat hnNlt]
  set bN : Nat := nN ||| r with hbN
  have hbNlt : bN < 2 ^ 32 := Nat.or_lt_two_pow hnNlt hrlt
  have hbbit : bN.testBit 31 = nN.testBit 31 := by
    rw [hbN, Nat.testBit_or, hrbit, Bool.or_false]
  refine ⟨?_, ?_, ?_, ?_, ?_, ?_⟩
  · rw [hnet]; omega
  · rw [hnet]; omega
  · rw [hbroad]; omega
  · rw [hbroad]; omega
  · rw [hnet, hbroad]
    have h1 := lt_two31_iff_testBit hnNlt
    have h2 := lt_two31_iff_testBit hbNlt
    rw [hbbit] at h2
    have hiff : nN < 2 ^ 31 ↔ bN < 2 ^ 31 := by rw [h1, h2]
    omega
  · rw [hnet, hbroad]
    have hle : nN ≤ bN := nat_le_or_left nN r
    omega

/-- Agreement of the signed (ToInt32) comparisons with the unsigned ones
for interval endpoints that respect block halves. -/
theorem toInt32n_compare {n1 b1 n2 b2 : Int}
    (hn1 : 0 ≤ n1) (hn1l : n1 < 2 ^ 32) (hb1 : 0 ≤ b1) (hb1l : b1 < 2 ^ 32)
    (hn2 : 0 ≤ n2) (hn2l : n2 < 2 ^ 32) (hb2 : 0 ≤ b2) (hb2l : b2 < 2 ^ 32)
    (hh1 : n1 < 2 ^ 31 ↔ b1 < 2 ^ 31) (hh2 : n2 < 2 ^ 31 ↔ b2 < 2 ^ 31) :
    ((toInt32n n1 ≤ toInt32n b2 ∧ toInt32n b1 ≥ toInt32n n2) ↔
      (n1 ≤ b2 ∧ b1 ≥ n2)) := by
  unfold toInt32n
  rw [Int.emod_eq_of_lt hn1 hn1l, Int.emod_eq_of_lt hb1 hb1l,
    Int.emod_eq_of_lt hn2 hn2l, Int.emod_eq_of_lt hb2 hb2l]
  split_ifs <;> omega

/-- Evaluation of cidrsOverlap: the two string round trips through
parseCIDR's networkAddress / broadcastAddress reduce to ToInt32 of the
numeric endpoints. -/
theorem cidrsOverlap_eval (c1 c2 : List Char) :
    cidrsOverlap c1 c2 =
      (decide (toInt32n (cidrNetwork c1) ≤ toInt32n (cidrBroadcast c2)) &&
       decide (toInt32n (cidrBroadcast c1) ≥ toInt32n (cidrNetwork c2))) := by
  unfold cidrsOverlap parseCIDR
  simp only [ipToNumber_numberToIp]
  rfl

/-- Claim C7 (confirmed): for valid CIDRs, cidrsOverlap is true exactly
when the closed unsigned intervals [network, broadcast] intersect
(networkA <= broadcastB and broadcastA >= networkB); it is symmetric,
and reflexive (every valid CIDR overlaps itself). -/
theorem c7_cidrsOverlap_interval (c1 c2 : List Char)
    (h1 : isValidCIDR c1 = true) (h2 : isValidCIDR c2 = true) :
    (cidrsOverlap c1 c2 = true ↔
      (cidrNetwork c1 ≤ cidrBroadcast c2 ∧ cidrBroadcast c1 ≥ cidrNetwork c2)) ∧
    cidrsOverlap c1 c2 = cidrsOverlap c2 c1 ∧
    cidrsOverlap c1 c1 = true := by
  obtain ⟨ha1, ha2, ha3, ha4, ha5, ha6⟩ := cidr_endpoints h1
  obtain ⟨hb1, hb2, hb3, hb4, hb5, hb6⟩ := cidr_endpoints h2
  have hiff : cidrsOverlap c1 c2 = true ↔
      (cidrNetwork c1 ≤ cidrBroadcast c2 ∧ cidrBroadcast c1 ≥ cidrNetwork c2) := by
    rw [cidrsOverlap_eval]
    simp only [Bool.and_eq_true, decide_eq_true_eq]
    exact toInt32n_compare ha1 ha2 ha3 ha4 hb1 hb2 hb3 hb4 ha5 hb5
  refine ⟨hiff, ?_, ?_⟩
  · have hiff2 : cidrsOverlap c2 c1 = true ↔
        (cidrNetwork c2 ≤ cidrBroadcast c1 ∧ cidrBroadcast c2 ≥ cidrNetwork c1) := by
      rw [cidrsOverlap_eval]
      simp only [Bool.and_eq_true, decide_eq_true_eq]
      exact toInt32n_compare hb1 hb2 hb3 hb4 ha1 ha2 ha3 ha4 hb5 ha5
    cases hcase : cidrsOverlap c1 c2 with
    | true =>
      have := hiff.mp hcase
      exact (hiff2.mpr ⟨by omega, by omega⟩).symm
    | false =>
      cases hcase2 : cidrsOverlap c2 c1 with
      | false => rfl
      | true =>
        have hc := hiff2.mp hcase2
        have : cidrsOverlap c1 c2 = true := hiff.mpr ⟨by omega, by omega⟩
        rw [hcase] at this
        exact absurd this (by simp)
  · have hiff3 : cidrsOverlap c1 c1 = true ↔
        (cidrNetwork c1 ≤ cidrBroadcast c1 ∧ cidrBroadcast c1 ≥ cidrNetwork c1) := by
      rw [cidrsOverlap_eval]
      simp only [Bool.and_eq_true, decide_eq_true_eq]
      exact toInt32n_compare ha1 ha2 ha3 ha4 ha1 ha2 ha3 ha4 ha5 ha5
    exact hiff3.mpr ⟨ha6, ha6⟩

/-- Claim C7, witness: two concrete valid CIDRs whose blocks overlap. -/
theorem c7_witness :
    isValidCIDR "10.0.0.0/24".toList = true ∧
    ((cidrsOverlap "10.0.0.0/24".toList "10.0.0.128/25".toList = true ↔
      (cidrNetwork "10.0.0.0/24".toList ≤ cidrBroadcast "10.0.0.128/25".toList ∧
       cidrBroadcast "10.0.0.0/24".toList ≥ cidrNetwork "10.0.0.128/25".toList)) ∧
     cidrsOverlap "10.0.0.0/24".toList "10.0.0.128/25".toList =
       cidrsOverlap "10.0.0.128/25".toList "10.0.0.0/24".toList ∧
     cidrsOverlap "10.0.0.0/24".toList "10.0.0.0/24".toList = true) :=
  ⟨by decide,
    c7_cidrsOverlap_interval "10.0.0.0/24".toList "10.0.0.128/25".toList
      (by decide) (by decide)⟩

/-- Agreement of the signed comparisons with the unsigned ones for the
containment test's comparison pattern. -/
theorem toInt32n_compare_contain {nC bC nP bP : Int}
    (hnC : 0 ≤ nC) (hnCl : nC < 2 ^ 32) (hbC : 0 ≤ bC) (hbCl : bC < 2 ^ 32)
    (hnP : 0 ≤ nP) (hnPl : nP < 2 ^ 32) (hbP : 0 ≤ bP) (hbPl : bP < 2 ^ 32)
    (hhC : nC < 2 ^ 31 ↔ bC < 2 ^ 31) (hhP : nP < 2 ^ 31 ↔ bP < 2 ^ 31) :
    ((toInt32n nC ≥ toInt32n nP ∧ toInt32n bC ≤ toInt32n bP) ↔
      (nC ≥ nP ∧ bC ≤ bP)) := by
  unfold toInt32n
  rw [Int.emod_eq_of_lt hnC hnCl, Int.emod_eq_of_lt hbC hbCl,
    Int.emod_eq_of_lt hnP hnPl, Int.emod_eq_of_lt hbP hbPl]
  split_ifs <;> omega

/-- Evaluation of isChildOfParent down to ToInt32 of the numeric
endpoints. -/
theorem isChildOfParent_eval (childCidr parentCidr : List Char) :
    isChildOfParent childCidr parentCidr =
      (decide (toInt32n (cidrNetwork childCidr) ≥ toInt32n (cidrNetwork parentCidr)) &&
       decide (toInt32n (cidrBroadcast childCidr) ≤ toInt32n (cidrBroadcast parentCidr))) := by
  unfold isChildOfParent parseCIDR
  simp only [ipToNumber_numberToIp]
  rfl

/-- Claim C8 (confirmed): for valid CIDRs, isChildOfParent is true
exactly when the child's closed unsigned interval [network, broadcast]
is contained (inclusive) in the parent's; in particular every valid CIDR
is contained in itself. -/
theorem c8_isChildOfParent_contained (childCidr parentCidr : List Char)
    (h1 : isValidCIDR childCidr = true) (h2 : isValidCIDR parentCidr = true) :
    (isChildOfParent childCidr parentCidr = true ↔
      (cidrNetwork childCidr ≥ cidrNetwork parentCidr ∧
       cidrBroadcast childCidr ≤ cidrBroadcast parentCidr)) ∧
    isChildOfParent childCidr childCidr = true := by
  obtain ⟨ha1, ha2, ha3, ha4, ha5, ha6⟩ := cidr_endpoints h1
  obtain ⟨hb1, hb2, hb3, hb4, hb5, hb6⟩ := cidr_endpoints h2
  constructor
  · rw [isChildOfParent_eval]
    simp only [Bool.and_eq_true, decide_eq_true_eq]
    exact toInt32n_compare_contain ha1 ha2 ha3 ha4 hb1 hb2 hb3 hb4 ha5 hb5
  · rw [isChildOfParent_eval]
    simp only [Bool.and_eq_true, decide_eq_true_eq]
    exact (toInt32n_compare_contain ha1 ha2 ha3 ha4 ha1 ha2 ha3 ha4 ha5 ha5).mpr
      ⟨le_refl _, le_refl _⟩

/-- Claim C8, witness: a concrete nested pair of valid CIDRs. -/
theorem c8_witness :
    isValidCIDR "10.0.0.0/24".toList = true ∧
    ((isChildOfParent "10.0.0.0/24".toList "10.0.0.0/16".toList = true ↔
      (cidrNetwork "10.0.0.0/24".toList ≥ cidrNetwork "10.0.0.0/16".toList ∧
       cidrBroadcast "10.0.0.0/24".toList ≤ cidrBroadcast "10.0.0.0/16".toList)) ∧
     isChildOfParent "10.0.0.0/24".toList "10.0.0.0/24".toList = true) :=
  ⟨by decide,
    c8_isChildOfParent_contained "10.0.0.0/24".toList "10.0.0.0/16".toList
      (by decide) (by decide)⟩

/-!
Structural lemmas about the tree builder: every node of the output
forest comes from a pool whose parentId chain reaches a root, and such
chains are duplicate-free, hence shorter than the pool count (so the
fuel bound of the reconstruction is never reached).
-/

theorem buildNode_id (pools : List IPPool) (lv : List (Int × Int))
    (fuel : Nat) (q : IPPool) : (buildNode pools lv fuel q).id = q.id := by
  cases fuel <;> rfl

theorem buildNode_totalIps (pools : List IPPool) (lv : List (Int × Int))
    (fuel : Nat) (q : IPPool) :
    (buildNode pools lv fuel q).totalIps = (parseCIDR q.cidr).totalIps := by
  cases fuel <;> rfl

theorem buildNode_usedIps (pools : List IPPool) (lv : List (Int × Int))
    (fuel : Nat) (q : IPPool) :
    (buildNode pools lv fuel q).usedIps =
      (kidsOf pools q).foldl
        (fun acc k => jsAddQ acc (parseCIDR k.cidr).totalIps) (some 0) := by
  cases fuel <;> rfl

theorem buildNode_children_succ (pools : List IPPool) (lv : List (Int × Int))
    (f : Nat) (q : IPPool) :
    (buildNode pools lv (f + 1) q).children =
      (kidsOf pools q).map (fun x => buildNode pools lv f x) := rfl

theorem mem_subnodesList {n : PoolNode} :
    ∀ {l : List PoolNode}, n ∈ subnodesList l ↔ ∃ x ∈ l, n ∈ subnodes x := by
  intro l
  induction l with
  | nil => simp [subnodesList]
  | cons x xs ih =>
    show n ∈ subnodes x ++ subnodesList xs ↔ _
    simp [List.mem_append, ih]

theorem iterParent_add (pools : List IPPool) (a b : Nat) (p : IPPool) :
    iterParent pools (a + b) p = (iterParent pools a p).bind (iterParent pools b) := by
  induction a generalizing p with
  | zero => simp [iterParent]
  | succ a ih =>
    rw [Nat.add_right_comm a 1 b]
    show (match parentLookup pools p with
          | none => none
          | some q => iterParent pools (a + b) q) =
      ((match parentLookup pools p with
        | none => none
        | some q => iterParent pools a q) : Option IPPool).bind (iterParent pools b)
    cases parentLookup pools p with
    | none => rfl
    | some q => exact ih q

theorem iterParent_isSome_of_le {pools : List IPPool} {k : Nat} {p r : IPPool}
    (h : iterParent pools k p = some r) {i : Nat} (hi : i ≤ k) :
    (iterParent pools i p).isSome := by
  have hik : i + (k - i) = k := by omega
  rw [← hik, iterParent_add] at h
  cases hx : iterParent pools i p with
  | none =>
    rw [hx] at h
    simp at h
  | some x => rfl

theorem iterParent_mem {pools : List IPPool} :
    ∀ (k : Nat) (p x : IPPool), p ∈ pools → iterParent pools k p = some x →
      x ∈ pools := by
  intro k
  induction k with
  | zero =>
    intro p x hp h
    simp [iterParent] at h
    rwa [← h]
  | succ k ih =>
    intro p x hp h
    show x ∈ pools
    rw [show k + 1 = 1 + k from by omega, iterParent_add] at h
    cases hq : iterParent pools 1 p with
    | none =>
      rw [hq] at h
      simp at h
    | some q =>
      rw [hq] at h
      refine ih q x ?_ h
      revert hq
      show (match parentLookup pools p with
            | none => none
            | some s => iterParent pools 0 s) = some q → q ∈ pools
      cases hpl : parentLookup pools p with
      | none => intro hcon; simp at hcon
      | some s =>
        intro hsq
        simp [iterParent] at hsq
        rw [← hsq]
        unfold parentLookup at hpl
        cases hpid : p.parentId with
        | none => rw [hpid] at hpl; simp at hpl
        | some pid =>
          rw [hpid] at hpl
          exact List.mem_of_find?_eq_some hpl

theorem find_self {pools : List IPPool} (hnd : (pools.map IPPool.id).Nodup)
    {p : IPPool} (hp : p ∈ pools) :
    pools.find? (fun q => q.id == p.id) = some p := by
  induction pools with
  | nil => simp at hp
  | cons h t ih =>
    rw [List.map_cons, List.nodup_cons] at hnd
    rcases List.mem_cons.mp hp with rfl | hpt
    · simp [List.find?]
    · have hne : (h.id == p.id) = false := by
        have : p.id ∈ t.map IPPool.id := List.mem_map.mpr ⟨p, hpt, rfl⟩
        simp only [beq_eq_false_iff_ne, ne_eq]
        intro he
        rw [he] at hnd
        exact hnd.1 this
      rw [List.find?]
      rw [hne]
      exact ih hnd.2 hpt

theorem id_inj {pools : List IPPool} (hnd : (pools.map IPPool.id).Nodup)
    {p q : IPPool} (hp : p ∈ pools) (hq : q ∈ pools) (h : p.id = q.id) :
    p = q := by
  have h1 := find_self hnd hp
  have h2 := find_self hnd hq
  rw [← h] at h2
  rw [h1] at h2
  exact Option.some_inj.mp h2

theorem node_origin {pools : List IPPool} (hnd : (pools.map IPPool.id).Nodup)
    (lv : List (Int × Int)) :
    ∀ (fuel : Nat) (p : IPPool), p ∈ pools →
    ∀ n ∈ subnodes (buildNode pools lv fuel p),
    ∃ q ∈ pools, ∃ k ≤ fuel, n = buildNode pools lv (fuel - k) q ∧
      iterParent pools k q = some p := by
  intro fuel
  induction fuel with
  | zero =>
    intro p hp n hn
    have hs : subnodes (buildNode pools lv 0 p) = [buildNode pools lv 0 p] := rfl
    rw [hs] at hn
    simp only [List.mem_singleton] at hn
    exact ⟨p, hp, 0, le_refl 0, by rw [hn], rfl⟩
  | succ f ih =>
    intro p hp n hn
    have hs : subnodes (buildNode pools lv (f + 1) p) =
        buildNode pools lv (f + 1) p ::
          subnodesList ((kidsOf pools p).map (fun x => buildNode pools lv f x)) := rfl
    rw [hs] at hn
    rcases List.mem_cons.mp hn with heq | hn2
    · exact ⟨p, hp, 0, by omega, by rw [heq, Nat.sub_zero], rfl⟩
    · obtain ⟨m, hm, hnm⟩ := mem_subnodesList.mp hn2
      obtain ⟨c, hc, rfl⟩ := List.mem_map.mp hm
      have hcp : c ∈ pools := List.mem_of_mem_filter hc
      obtain ⟨q, hq, k, hk, hn_eq, hiter⟩ := ih c hcp n hnm
      refine ⟨q, hq, k + 1, by omega, ?_, ?_⟩
      · rw [Nat.succ_sub_succ]
        exact hn_eq
      · rw [iterParent_add pools k 1 q, hiter]
        have hcid : c.parentId = some p.id := by
          have := List.of_mem_filter hc
          simpa using this
        have hpl : parentLookup pools c = some p := by
          unfold parentLookup
          rw [hcid]
          exact find_self hnd hp
        show iterParent pools 1 c = some p
        simp [iterParent, hpl]

theorem chain_bound {pools : List IPPool}
    {q r : IPPool} {k : Nat} (hq : q ∈ pools)
    (hiter : iterParent pools k q = some r) (hroot : r.parentId = none) :
    k < pools.length := by
  have hdead : iterParent pools (k + 1) q = none := by
    rw [iterParent_add pools k 1 q, hiter]
    show iterParent pools 1 r = none
    have hpl : parentLookup pools r = none := by
      unfold parentLookup
      rw [hroot]
    simp [iterParent, hpl]
  have hstable : ∀ j, k + 1 ≤ j → iterParent pools j q = none := by
    intro j hj
    have hje : j = (k + 1) + (j - (k + 1)) := by omega
    rw [hje, iterParent_add, hdead]
    rfl
  have hsome : ∀ i, i ≤ k → (iterParent pools i q).isSome := fun i hi =>
    iterParent_isSome_of_le hiter hi
  have key : ∀ i j, i < j → j ≤ k → iterParent pools i q ≠ iterParent pools j q := by
    intro i j hij hj heq2
    cases hx : iterParent pools i q with
    | none =>
      have := hsome i (by omega)
      rw [hx] at this
      simp at this
    | some x =>
      have hjx : iterParent pools j q = some x := by rw [← heq2, hx]
      have hd1 : 1 ≤ j - i := by omega
      have hcycle : iterParent pools (j - i) x = some x := by
        have hsplitj : iterParent pools (i + (j - i)) q = some x := by
          rw [show i + (j - i) = j from by omega, hjx]
        rw [iterParent_add, hx] at hsplitj
        exact hsplitj
      have hper : ∀ t, iterParent pools (i + t * (j - i)) q = some x := by
        intro t
        induction t with
        | zero => simpa using hx
        | succ t iht =>
          have hstep : i + (t + 1) * (j - i) = (i + t * (j - i)) + (j - i) := by ring
          rw [hstep, iterParent_add, iht]
          exact hcycle
      have hbig : k + 1 ≤ i + (k + 1) * (j - i) := by
        have : (k + 1) * 1 ≤ (k + 1) * (j - i) := Nat.mul_le_mul_left _ hd1
        omega
      have hcontr := hper (k + 1)
      rw [hstable _ hbig] at hcontr
      simp at hcontr
  have hinj : ∀ i j : Fin (k + 1), (i : Nat) ≠ (j : Nat) →
      iterParent pools i q ≠ iterParent pools j q := by
    intro i j hne
    rcases Nat.lt_or_ge (i : Nat) (j : Nat) with hij | hij
    · exact key i j hij (by omega)
    · have hji : (j : Nat) < (i : Nat) := by omega
      intro heq2
      exact key j i hji (by omega) heq2.symm
  let f : Fin (k + 1) → IPPool := fun i =>
    (iterParent pools i q).get (hsome i (by omega))
  have hfmem : ∀ i : Fin (k + 1), f i ∈ pools := by
    intro i
    refine iterParent_mem i q (f i) hq ?_
    exact (Option.some_get (hsome i (by omega))).symm
  have hfinj : ∀ i ∈ (Finset.univ : Finset (Fin (k + 1))),
      ∀ j ∈ (Finset.univ : Finset (Fin (k + 1))), f i = f j → i = j := by
    intro i _ j _ hfij
    by_contra hne
    have hne2 : (i : Nat) ≠ (j : Nat) := fun h => hne (Fin.ext h)
    apply hinj i j hne2
    rw [← Option.some_get (hsome i (by omega)), ← Option.some_get (hsome j (by omega))]
    exact congrArg some hfij
  have hcard := Finset.card_le_card_of_injOn f
    (fun i _ => List.mem_toFinset.mpr (hfmem i)) hfinj
  rw [Finset.card_univ, Fintype.card_fin] at hcard
  have hlen := pools.toFinset_card_le
  omega

theorem forest_origin {pools : List IPPool} (hnd : (pools.map IPPool.id).Nodup)
    {n : PoolNode} (hn : n ∈ allNodes (buildPoolTree pools)) :
    ∃ q ∈ pools, ∃ r ∈ pools, ∃ k, r.parentId = none ∧ k < pools.length ∧
      n = buildNode pools (computeLevels pools) (pools.length - k) q ∧
      iterParent pools k q = some r := by
  unfold allNodes buildPoolTree at hn
  obtain ⟨m, hm, hnm⟩ := mem_subnodesList.mp hn
  obtain ⟨r, hr, rfl⟩ := List.mem_map.mp hm
  have hrp : r ∈ pools := List.mem_of_mem_filter hr
  have hroot : r.parentId = none := by
    have := List.of_mem_filter hr
    simpa using this
  obtain ⟨q, hq, k, hk, heq, hiter⟩ := node_origin hnd _ pools.length r hrp n hnm
  exact ⟨q, hq, r, hrp, k, hroot, chain_bound hq hiter hroot, heq, hiter⟩

/-!
Claim C1: what usedIps aggregates.
-/

/-- Claim C1, counterexample: a three-level chain 10.0.0.0/16 ->
10.0.0.0/24 -> 10.0.0.0/25.  The claim says the root's usedIps is the
sum of totalIps over all descendants (256 + 128 = 384, equivalently
child.totalIps + child.usedIps); the code computes only the direct
child's totalIps, 256. -/
theorem c1_counterexample :
    (allNodes (buildPoolTree [⟨1, "10.0.0.0/16".toList, none⟩,
      ⟨2, "10.0.0.0/24".toList, some 1⟩,
      ⟨3, "10.0.0.0/25".toList, some 2⟩])).map
      (fun n => (n.usedIps, descTotalSum n)) =
      [(some 256, some 384), (some 128, some 128), (some 0, some 0)] ∧
    (some (256 : ℚ) : Option ℚ) ≠ some 384 := by
  constructor
  · decide
  · decide

/-- Claim C1 (amended): in the forest built from a collection with
pairwise distinct ids, every node's usedIps is the sum of totalIps over
its direct children only (so leaves have usedIps 0); totalIps of deeper
descendants are not added — the recursion assigns child.usedIps but adds
only child.totalIps to the parent's accumulator. -/
theorem c1_usedIps_direct_children (pools : List IPPool)
    (hnd : (pools.map IPPool.id).Nodup) :
    (allNodes (buildPoolTree pools)).all
      (fun n => decide (n.usedIps =
        n.children.foldl (fun acc c => jsAddQ acc c.totalIps) (some 0))) = true := by
  rw [List.all_eq_true]
  intro n hn
  rw [decide_eq_true_eq]
  obtain ⟨q, hq, r, hr, k, hroot, hk, heq, hiter⟩ := forest_origin hnd hn
  obtain ⟨f, hf⟩ : ∃ f, pools.length - k = f + 1 := ⟨pools.length - k - 1, by omega⟩
  rw [hf] at heq
  subst heq
  rw [buildNode_usedIps, buildNode_children_succ, List.foldl_map]
  congr 1
  funext acc x
  rw [buildNode_totalIps]

/-- Claim C1, witness for the amended theorem on the same three-level
chain. -/
theorem c1_witness :
    (([⟨1, "10.0.0.0/16".toList, none⟩, ⟨2, "10.0.0.0/24".toList, some 1⟩,
       ⟨3, "10.0.0.0/25".toList, some 2⟩] : List IPPool).map IPPool.id).Nodup ∧
    (allNodes (buildPoolTree [⟨1, "10.0.0.0/16".toList, none⟩,
      ⟨2, "10.0.0.0/24".toList, some 1⟩, ⟨3, "10.0.0.0/25".toList, some 2⟩])).all
      (fun n => decide (n.usedIps =
        n.children.foldl (fun acc c => jsAddQ acc c.totalIps) (some 0))) = true :=
  ⟨by decide,
    c1_usedIps_direct_children
      [⟨1, "10.0.0.0/16".toList, none⟩, ⟨2, "10.0.0.0/24".toList, some 1⟩,
       ⟨3, "10.0.0.0/25".toList, some 2⟩] (by decide)⟩

/-!
Claim C2: what happens to a pool with a dangling parentId.
-/

/-- Claim C2, counterexample: pool 2 references the nonexistent parent
99.  The claim requires the inconsistency to be surfaced and the pool
not to be silently dropped; buildPoolTree returns only the forest
[pool 1] — pool 2 appears nowhere in the output and no error is
reported (the function's only output is the forest). -/
theorem c2_counterexample :
    (allNodes (buildPoolTree [⟨1, "10.0.0.0/16".toList, none⟩,
      ⟨2, "10.1.0.0/16".toList, some 99⟩])).map PoolNode.id = [1] := by
  decide

/-- Claim C2 (amended): a stored pool whose parentId resolves to no pool
in the collection is silently dropped from the output forest — it is
neither treated as a root nor attached to any node, and buildPoolTree
reports no error (its only output is the forest). -/
theorem c2_orphan_dropped (pools : List IPPool)
    (hnd : (pools.map IPPool.id).Nodup) (p : IPPool) (hp : p ∈ pools)
    (pid : Int) (hpid : p.parentId = some pid)
    (hdangling : ∀ q ∈ pools, q.id ≠ pid) :
    (allNodes (buildPoolTree pools)).all (fun n => n.id != p.id) = true := by
  rw [List.all_eq_true]
  intro n hn
  rw [bne_iff_ne]
  intro hid
  obtain ⟨q, hq, r, hr, k, hroot, hk, heq, hiter⟩ := forest_origin hnd hn
  have hnq : n.id = q.id := by rw [heq, buildNode_id]
  have hqp : q = p := id_inj hnd hq hp (by rw [← hnq, hid])
  subst hqp
  cases k with
  | zero =>
    simp only [iterParent, Option.some_inj] at hiter
    rw [← hiter, hpid] at hroot
    exact Option.noConfusion hroot
  | succ k =>
    have hpl : parentLookup pools q = none := by
      unfold parentLookup
      rw [hpid, List.find?_eq_none]
      intro x hx
      simp [hdangling x hx]
    simp [iterParent, hpl] at hiter

/-- Claim C2, witness for the amended theorem. -/
theorem c2_witness :
    (([⟨1, "10.0.0.0/16".toList, none⟩, ⟨2, "10.1.0.0/16".toList, some 99⟩] :
      List IPPool).map IPPool.id).Nodup ∧
    (allNodes (buildPoolTree [⟨1, "10.0.0.0/16".toList, none⟩,
      ⟨2, "10.1.0.0/16".toList, some 99⟩])).all
      (fun n => n.id != (⟨2, "10.1.0.0/16".toList, some 99⟩ : IPPool).id) = true :=
  ⟨by decide,
    c2_orphan_dropped
      [⟨1, "10.0.0.0/16".toList, none⟩, ⟨2, "10.1.0.0/16".toList, some 99⟩]
      (by decide) ⟨2, "10.1.0.0/16".toList, some 99⟩ (by decide) 99 rfl
      (by decide)⟩

/-!
Claim C10: cyclic parentId references.
-/

/-- Claim C10 (confirmed): in a collection with pairwise distinct ids, a
pool lying on a parentId cycle (following parentId m >= 1 times returns
to it, which includes a pool whose parentId is its own id) is never
reachable from any root of the returned forest: the recursive usedIps
aggregation, which walks exactly the forest, never visits it, and the
bounded reconstruction returns a finite forest. -/
theorem c10_cycle_unreachable (pools : List IPPool)
    (hnd : (pools.map IPPool.id).Nodup) (p : IPPool) (hp : p ∈ pools)
    (m : Nat) (hm : 1 ≤ m) (hcycle : iterParent pools m p = some p) :
    (allNodes (buildPoolTree pools)).all (fun n => n.id != p.id) = true := by
  rw [List.all_eq_true]
  intro n hn
  rw [bne_iff_ne]
  intro hid
  obtain ⟨q, hq, r, hr, k, hroot, hk, heq, hiter⟩ := forest_origin hnd hn
  have hnq : n.id = q.id := by rw [heq, buildNode_id]
  have hqp : q = p := id_inj hnd hq hp (by rw [← hnq, hid])
  subst hqp
  have hdead : iterParent pools (k + 1) q = none := by
    rw [iterParent_add pools k 1 q, hiter]
    have hpl : parentLookup pools r = none := by
      unfold parentLookup
      rw [hroot]
    show iterParent pools 1 r = none
    simp [iterParent, hpl]
  have hper : ∀ t, iterParent pools (t * m) q = some q := by
    intro t
    induction t with
    | zero => simp [iterParent]
    | succ t iht =>
      have hstep : (t + 1) * m = t * m + m := by ring
      rw [hstep, iterParent_add, iht]
      exact hcycle
  have hbig : k + 1 ≤ (k + 1) * m := by
    have := Nat.mul_le_mul_left (k + 1) hm
    omega
  have hstable : iterParent pools ((k + 1) * m) q = none := by
    have hsp : (k + 1) * m = (k + 1) + ((k + 1) * m - (k + 1)) := by omega
    rw [hsp, iterParent_add, hdead]
    rfl
  have hcontr := hper (k + 1)
  rw [hstable] at hcontr
  exact Option.noConfusion hcontr

/-- Claim C10, witness: pool 2 is its own parent; it is absent from the
forest built from [pool 1 (root), pool 2 (self-parent)]. -/
theorem c10_witness :
    (([⟨1, "10.0.0.0/16".toList, none⟩, ⟨2, "10.1.0.0/16".toList, some 2⟩] :
      List IPPool).map IPPool.id).Nodup ∧
    (allNodes (buildPoolTree [⟨1, "10.0.0.0/16".toList, none⟩,
      ⟨2, "10.1.0.0/16".toList, some 2⟩])).all
      (fun n => n.id != (⟨2, "10.1.0.0/16".toList, some 2⟩ : IPPool).id) = true :=
  ⟨by decide,
    c10_cycle_unreachable
      [⟨1, "10.0.0.0/16".toList, none⟩, ⟨2, "10.1.0.0/16".toList, some 2⟩]
      (by decide) ⟨2, "10.1.0.0/16".toList, some 2⟩ (by decide) 1 (by decide)
      (by decide)⟩

/-!
Claim C4: node levels versus tree depth.
-/

/-- Claim C4, failing input: pools listed newest first (as getAllPools
returns them, created_at DESC, so children precede parents): the chain
10.0.0.0/16 (id 1, root) <- 10.0.0.0/24 (id 2) <- 10.0.0.0/25 (id 3).
The grandchild node 3 sits at depth 2 under the root, and its parent
node 2 has level 1, so the claim requires level 2 — but the single
sequential pass reads node 2's level before it is assigned and gives
node 3 level 0 + 1 = 1. -/
theorem c4_level_evaluation :
    (allNodes (buildPoolTree [⟨3, "10.0.0.0/25".toList, some 2⟩,
      ⟨2, "10.0.0.0/24".toList, some 1⟩,
      ⟨1, "10.0.0.0/16".toList, none⟩])).map (fun n => (n.id, n.level)) =
      [(1, 0), (2, 1), (3, 1)] := by
  decide

/-!
Claim C3: validateCIDR and an unresolved parentId.
-/

/-- Claim C3, counterexample: the candidate 10.0.0.0/24 with parentId 5
against an empty collection.  The claim requires a parent-not-found
rejection before the containment and sibling checks; instead validation
passes (there is no parent-not-found outcome at all — the result type of
the validator has no such error). -/
theorem c3_counterexample :
    validateCIDR [] "10.0.0.0/24".toList (some 5) = ValidationResult.ok := by
  decide

/-- Claim C3 (amended): when parentId does not resolve to any pool in
the collection, validateCIDR performs no parent check at all: the guard
if (parent) skips the containment test, no parent-not-found error is
produced (none exists), and validation proceeds directly to the
sibling-overlap scan — so a well-formed, non-duplicate candidate with a
dangling parentId and no overlapping sibling passes validation. -/
theorem c3_dangling_parent_passes (pools : List IPPool) (cidr : List Char)
    (pid : Int) (hne : cidr ≠ []) (hvalid : isValidCIDR cidr = true)
    (hdup : cidrExists pools (normalizeCIDR cidr) = false)
    (hdangling : ∀ p ∈ pools, p.id ≠ pid)
    (hsib : ∀ p ∈ pools, p.parentId = some pid →
      cidrsOverlap (normalizeCIDR cidr) p.cidr = false) :
    validateCIDR pools cidr (some pid) = ValidationResult.ok := by
  have hfind : pools.find? (fun p => p.id == pid) = none := by
    rw [List.find?_eq_none]
    intro x hx
    simp [hdangling x hx]
  have hsibfind : ((pools.filter (fun p => p.parentId == some pid)).find?
      (fun s => cidrsOverlap (normalizeCIDR cidr) s.cidr)) = none := by
    rw [List.find?_eq_none]
    intro s hs
    have hsp : s.parentId = some pid := by
      have := List.of_mem_filter hs
      simpa using this
    simp [hsib s (List.mem_of_mem_filter hs) hsp]
  unfold validateCIDR
  rw [if_neg hne]
  simp only [hvalid, Bool.not_true, Bool.false_eq_true, if_false, hdup,
    hfind, hsibfind]

/-- Claim C3, witness for the amended theorem: empty collection,
candidate 10.0.0.0/24, dangling parentId 5 — validation returns ok. -/
theorem c3_witness :
    ("10.0.0.0/24".toList ≠ ([] : List Char)) ∧
    validateCIDR [] "10.0.0.0/24".toList (some 5) = ValidationResult.ok :=
  ⟨by decide,
    c3_dangling_parent_passes [] "10.0.0.0/24".toList 5 (by decide) (by decide)
      (by decide) (by decide) (by decide)⟩
